import Mathlib

/-!
Verification of the bamimi-cache file cache (knfs-library/bamimi-cache).

The development shallowly embeds the TypeScript sources `src/index.ts`,
`src/dict.ts` and `src/buffer.ts` (version 1.6.3).  JavaScript `Map` and
`Set` objects are modelled as insertion-ordered association lists and
duplicate-free lists; timestamps are natural numbers passed explicitly;
the external collaborators (the snappy codec, `JSON.stringify`,
`JSON.parse`, `String`, `Number` and the md5 hash) are gathered in a
`Platform` record, since the repository treats them as pluggable
byte-transforms.  Fallible filesystem calls are modelled by an explicit
success flag; the configured error sink is modelled as the
collect-and-continue variant (messages are appended to an `errors` list).
-/

namespace Bamimi

section AList

variable {α : Type}

/-- Lookup in an insertion-ordered association list (models JS Map.get /
object indexing). -/
def alGet : List (String × α) → String → Option α
  | [], _ => none
  | (k', v) :: rest, k => if k' = k then some v else alGet rest k

/-- Insert-or-replace in an insertion-ordered association list (models JS
Map.set / object property assignment: existing keys keep their position,
new keys are appended). -/
def alSet : List (String × α) → String → α → List (String × α)
  | [], k, v => [(k, v)]
  | (k', v') :: rest, k, v =>
    if k' = k then (k, v) :: rest else (k', v') :: alSet rest k v

/-- Removal from an association list (models JS Map.delete / delete of an
object property). -/
def alDel : List (String × α) → String → List (String × α)
  | [], _ => []
  | (k', v') :: rest, k =>
    if k' = k then alDel rest k else (k', v') :: alDel rest k

@[simp] theorem alGet_nil (k : String) : alGet ([] : List (String × α)) k = none := rfl

@[simp] theorem alGet_alSet_self (m : List (String × α)) (k : String) (v : α) :
    alGet (alSet m k v) k = some v := by
  induction m with
  | nil => simp [alGet, alSet]
  | cons p rest ih =>
    by_cases h : p.1 = k <;> simp [alSet, alGet, h, ih]

theorem alGet_alSet_ne (m : List (String × α)) (k k' : String) (v : α) (h : k ≠ k') :
    alGet (alSet m k v) k' = alGet m k' := by
  induction m with
  | nil => simp [alGet, alSet, h]
  | cons p rest ih =>
    by_cases hp : p.1 = k
    · simp [alSet, alGet, hp, h, Ne.symm h]
    · by_cases hp' : p.1 = k' <;> simp [alSet, alGet, hp, hp', ih, Ne.symm h]

@[simp] theorem alGet_alDel_self (m : List (String × α)) (k : String) :
    alGet (alDel m k) k = none := by
  induction m with
  | nil => simp [alDel]
  | cons p rest ih =>
    by_cases h : p.1 = k <;> simp [alDel, alGet, h, ih]

theorem alGet_alDel_ne (m : List (String × α)) (k k' : String) (h : k ≠ k') :
    alGet (alDel m k) k' = alGet m k' := by
  induction m with
  | nil => simp [alDel]
  | cons p rest ih =>
    by_cases hp : p.1 = k
    · simp [alDel, alGet, hp, h, ih, Ne.symm h]
    · by_cases hp' : p.1 = k' <;> simp [alDel, alGet, hp, hp', ih, Ne.symm h]

theorem keys_alDel_subset (m : List (String × α)) (k : String) :
    ∀ x, x ∈ (alDel m k).map Prod.fst → x ∈ m.map Prod.fst := by
  induction m with
  | nil => simp [alDel]
  | cons p rest ih =>
    intro x hx
    by_cases hp : p.1 = k
    · simp only [alDel, hp, if_pos rfl] at hx
      exact List.mem_cons_of_mem _ (ih x hx)
    · simp only [alDel, if_neg hp, List.map_cons, List.mem_cons] at hx
      rcases hx with h | h
      · exact List.mem_cons.2 (Or.inl h)
      · exact List.mem_cons_of_mem _ (ih x h)

theorem nodup_keys_alDel (m : List (String × α)) (k : String)
    (h : (m.map Prod.fst).Nodup) : ((alDel m k).map Prod.fst).Nodup := by
  induction m with
  | nil => simp [alDel]
  | cons p rest ih =>
    simp only [List.map_cons, List.nodup_cons] at h
    by_cases hp : p.1 = k
    · simp only [alDel, hp, if_pos rfl]
      exact ih h.2
    · simp only [alDel, if_neg hp, List.map_cons, List.nodup_cons]
      exact ⟨fun hc => h.1 (keys_alDel_subset rest k p.1 hc), ih h.2⟩

theorem mem_alSet (m : List (String × α)) (k : String) (v : α) (q : String × α)
    (hq : q ∈ alSet m k v) : q = (k, v) ∨ q ∈ m := by
  induction m with
  | nil =>
    exact Or.inl (List.mem_singleton.1 hq)
  | cons r rr ihr =>
    by_cases hr : r.1 = k
    · simp only [alSet, if_pos hr, List.mem_cons] at hq
      rcases hq with hq | hq
      · exact Or.inl hq
      · exact Or.inr (List.mem_cons_of_mem _ hq)
    · simp only [alSet, if_neg hr, List.mem_cons] at hq
      rcases hq with hq | hq
      · exact Or.inr (hq ▸ List.mem_cons_self r rr)
      · rcases ihr hq with h1 | h1
        · exact Or.inl h1
        · exact Or.inr (List.mem_cons_of_mem _ h1)

theorem nodup_keys_alSet (m : List (String × α)) (k : String) (v : α)
    (h : (m.map Prod.fst).Nodup) : ((alSet m k v).map Prod.fst).Nodup := by
  induction m with
  | nil => simp [alSet]
  | cons p rest ih =>
    simp only [List.map_cons, List.nodup_cons] at h
    by_cases hp : p.1 = k
    · simp only [alSet, if_pos hp, List.map_cons, List.nodup_cons]
      exact ⟨hp ▸ h.1, h.2⟩
    · simp only [alSet, if_neg hp, List.map_cons, List.nodup_cons]
      refine ⟨fun hc => ?_, ih h.2⟩
      rcases List.mem_map.1 hc with ⟨q, hq, hq1⟩
      rcases mem_alSet rest k v q hq with h1 | h1
      · exact hp (by rw [← hq1, h1])
      · exact h.1 (hq1 ▸ List.mem_map_of_mem Prod.fst h1)

end AList

/-- The runtime shape tag recorded by `set` via `typeof content`
(src/index.ts, field `type` of `DataMetadata`). -/
inductive JsType
  | str
  | num
  | obj
deriving DecidableEq

/-- A JavaScript value of one of the supported shapes, with the object and
number representations abstracted (the cache only inspects `typeof`). -/
inductive JsValue (O Nm : Type)
  | vstr (s : String)
  | vnum (n : Nm)
  | vobj (o : O)
deriving DecidableEq

/-- The external collaborators of the cache: JSON serialization, numeric
string conversion, the snappy codec composed with base64, and the md5 hex
digest used to derive file names.  The repository treats all of these as
opaque byte transforms. -/
structure Platform where
  Obj : Type
  Num : Type
  stringifyObj : Obj → String
  parseObj : String → Option Obj
  numToString : Num → String
  parseNum : String → Num
  compressStr : String → String
  uncompressStr : String → Option String
  md5hex : String → String

/-- The `typeof` dispatch recorded in metadata. -/
def typeOf {O Nm : Type} : JsValue O Nm → JsType
  | .vstr _ => .str
  | .vnum _ => .num
  | .vobj _ => .obj

/-- Translation of `CacheFile.formatData` (src/index.ts lines 585-592):
objects are JSON-stringified, everything else goes through `String`. -/
def formatData (P : Platform) : JsValue P.Obj P.Num → String
  | .vobj o => P.stringifyObj o
  | .vnum n => P.numToString n
  | .vstr s => s

/-- Translation of `CacheFile.reformatData` (src/index.ts lines 603-612):
objects are JSON-parsed (which may throw, hence `Option`), numbers go
through `Number`, strings through `String`. -/
def reformatData (P : Platform) (formattedData : String) : JsType → Option (JsValue P.Obj P.Num)
  | .obj => (P.parseObj formattedData).map JsValue.vobj
  | .num => some (JsValue.vnum (P.parseNum formattedData))
  | .str => some (JsValue.vstr formattedData)

/-- Translation of the private method `compress` (snappy then base64). -/
def compressData (P : Platform) (rawData : String) : String :=
  P.compressStr rawData

/-- Translation of the private method `uncompress` (base64 decode then
snappy, which throws on corrupt input, hence `Option`). -/
def uncompressData (P : Platform) (compressedData : String) : Option String :=
  P.uncompressStr compressedData

/-- Keyword index (src/dict.ts): a JS Map from keyword to a Set of cache
keys, modelled as an insertion-ordered association list of duplicate-free
lists. -/
structure Dict where
  index : List (String × List String)
deriving DecidableEq

/-- Reading a keyword set, defaulting to the empty set when absent
(models the expression index.get(keyword) handling in search). -/
def dictGet (d : Dict) (keyword : String) : List String :=
  (alGet d.index keyword).getD []

/-- Adding one value to a JS Set (no duplicates, insertion order kept). -/
def addSetElem (s : List String) (v : String) : List String :=
  if v ∈ s then s else s.concat v

/-- Translation of Dict.addToDict (src/dict.ts lines 27-37). -/
def Dict.addToDict (d : Dict) (keyword value : String) : Dict :=
  match alGet d.index keyword with
  | some s => ⟨alSet d.index keyword (addSetElem s value)⟩
  | none => ⟨alSet d.index keyword [value]⟩

/-- One step of the AND reduce in Dict.search: keep the accumulator
elements that also occur in the next keyword set. -/
def interStep (acc s : List String) : List String :=
  acc.filter (fun v => v ∈ s)

/-- One step of the OR reduce in Dict.search: add every element of the
next keyword set to the accumulator, without duplicates. -/
def unionStep (acc s : List String) : List String :=
  s.foldl (fun a v => if v ∈ a then a else a.concat v) acc

/-- Translation of Dict.search (src/dict.ts lines 48-81).  The empty
keyword list yields []; AND reduces with the first keyword set as initial
accumulator (the JS reduce visits every element including the first); any
logic value other than AND takes the OR branch. -/
def Dict.search (d : Dict) (keywords : List String) (logic : String) : List String :=
  if keywords.length = 0 then []
  else
    let keySets := keywords.map (fun keyword => dictGet d keyword)
    if logic = "AND" then
      match keySets with
      | [] => []
      | s0 :: _ => keySets.foldl interStep s0
    else
      keySets.foldl unionStep []

/-- Dict.search with the logic argument omitted: the TypeScript default
parameter of Dict.search is OR (src/dict.ts line 48). -/
def Dict.searchOmittedLogic (d : Dict) (keywords : List String) : List String :=
  Dict.search d keywords "OR"

/-- One iteration of the Dict.removeValue loop: a keyword set containing
the value loses it, and a set emptied by the removal is dropped from the
index together with its keyword; sets not containing the value are kept
as they are. -/
def rmStep (value : String) (kv : String × List String) : Option (String × List String) :=
  if value ∈ kv.2 then
    if kv.2.erase value = [] then none else some (kv.1, kv.2.erase value)
  else some kv

/-- Translation of Dict.removeValue (src/dict.ts lines 90-103). -/
def Dict.removeValue (d : Dict) (value : String) : Dict :=
  ⟨d.index.filterMap (rmStep value)⟩

/-- One entry of the hot-read buffer (src/buffer.ts BufferEntry). -/
structure BufferEntry (α : Type) where
  value : α
  lastAccessed : Nat
deriving DecidableEq

/-- The hot-read buffer (src/buffer.ts BufferCache): storage map plus the
configured expiration window. -/
structure BufferCache (α : Type) where
  storage : List (String × BufferEntry α)
  expirationTime : Nat
deriving DecidableEq

/-- Lookup through the optional buffer (the engine holds null when
peakDuration is 0, modelled by none). -/
def bufLookup {α : Type} (b : Option (BufferCache α)) (key : String) :
    Option (BufferEntry α) :=
  match b with
  | none => none
  | some bc => alGet bc.storage key

/-- BufferCache.set through the optional buffer: stores the value with
lastAccessed refreshed to now. -/
def bufSet {α : Type} (b : Option (BufferCache α)) (key : String) (v : α) (now : Nat) :
    Option (BufferCache α) :=
  match b with
  | none => none
  | some bc => some { bc with storage := alSet bc.storage key ⟨v, now⟩ }

/-- BufferCache.del through the optional buffer. -/
def bufDel {α : Type} (b : Option (BufferCache α)) (key : String) :
    Option (BufferCache α) :=
  match b with
  | none => none
  | some bc => some { bc with storage := alDel bc.storage key }

/-- The configuration fields the cache logic reads (src/index.ts
ConfigType; folder, log and the handlers are modelled implicitly). -/
structure ConfigType where
  expire : Nat
  autoCompress : Bool
  peakDuration : Nat
  maxSize : Nat
deriving DecidableEq

/-- Per-entry options as stored in metadata (src/index.ts
OptionsMetadata, without the unused compressionAlgorithm). -/
structure OptionsMetadata where
  expire : Nat
  compress : Bool
  search : List String
deriving DecidableEq

/-- Per-entry metadata record (src/index.ts DataMetadata). -/
structure DataMetadata where
  path : String
  size : Nat
  type : JsType
  createdAt : Nat
  updatedAt : Nat
  options : OptionsMetadata
deriving DecidableEq

/-- The caller-visible options argument of set, a Partial of
OptionsMetadata: absent fields are none. -/
structure SetOptions where
  expire : Option Nat
  compress : Option Bool
  search : Option (List String)
deriving DecidableEq

/-- The options record stored by set: the spread of optionDefault and the
caller options, with compress forced to options.compress OR-ed with the
configured autoCompress (src/index.ts lines 210-214). -/
def mergedOptions (cfg : ConfigType) (opts : SetOptions) : OptionsMetadata :=
  { expire := opts.expire.getD 0
    compress := opts.compress.getD false || cfg.autoCompress
    search := opts.search.getD [] }

/-- A deletion request posted to the out-of-process worker
(workers/delete.worker payload). -/
structure WorkerMsg where
  filePath : String
  key : String
deriving DecidableEq

/-- An armed expiry timer: the file path captured by the setTimeout
closure and the delay it was armed with. -/
structure TimerEntry where
  filePath : String
  timeout : Nat
deriving DecidableEq

/-- The mutable state of one CacheFile instance: the metadata map, the
keyword index, the optional hot-read buffer, the expiry timer map, the
cache folder contents (path to raw file content), the deletion requests
already posted to the worker and not yet answered, and the messages
passed to the error sink. -/
structure CacheState (O Nm : Type) where
  data : List (String × DataMetadata)
  dict : Dict
  buffer : Option (BufferCache (JsValue O Nm))
  timers : List (String × TimerEntry)
  files : List (String × String)
  pending : List WorkerMsg
  errors : List String
deriving DecidableEq

/-- The collect-and-continue error sink: the message is recorded and
control returns to the caller. -/
def pushError {O Nm : Type} (st : CacheState O Nm) (msg : String) : CacheState O Nm :=
  { st with errors := st.errors.concat msg }

namespace CacheFile

/-- Translation of the private deleteAfterTimeout (src/index.ts lines
500-517): an existing timer for the key is cleared first, then a new
timer is armed whose closure will post the file path and key to the
deletion worker. -/
def deleteAfterTimeout {O Nm : Type} (st : CacheState O Nm)
    (filePath key : String) (timeout : Nat) : CacheState O Nm :=
  { st with timers := alSet (alDel st.timers key) key ⟨filePath, timeout⟩ }

/-- Translation of the private clearDeleteTimeout (src/index.ts lines
524-530). -/
def clearDeleteTimeout {O Nm : Type} (st : CacheState O Nm) (key : String) :
    CacheState O Nm :=
  { st with timers := alDel st.timers key }

/-- Translation of the private deleteMetadata (src/index.ts lines
470-479): when the key is present its record is deleted, the key is
removed from the keyword index, and the buffer entry is evicted. -/
def deleteMetadata {O Nm : Type} (st : CacheState O Nm) (key : String) :
    CacheState O Nm :=
  match alGet st.data key with
  | none => st
  | some _ =>
    { st with
      data := alDel st.data key
      dict := Dict.removeValue st.dict key
      buffer := bufDel st.buffer key }

/-- Translation of exist (src/index.ts lines 249-251): a pure metadata
membership test. -/
def exist {O Nm : Type} (st : CacheState O Nm) (key : String) : Bool :=
  (alGet st.data key).isSome

/-- Translation of set (src/index.ts lines 180-237).  Undefined content
is reported and the call returns; oversized content (when maxSize is
configured) is reported and the call returns; otherwise the formatted and
possibly compressed bytes are written to the md5-derived path, the
metadata record is upserted with fresh createdAt and updatedAt, search
tags are registered, and the expiry timer is armed when options.expire or
the configured default expire is positive, or cleared otherwise.  The
fsWriteOk flag models success of fs.outputFile; on failure the rejection
is caught and reported. -/
def set (P : Platform) (cfg : ConfigType) (st : CacheState P.Obj P.Num) (now : Nat)
    (key : String) (content : Option (JsValue P.Obj P.Num)) (opts : SetOptions)
    (fsWriteOk : Bool) : CacheState P.Obj P.Num :=
  match content with
  | none => pushError st ("Content is undefined at key: " ++ key)
  | some v =>
    let formattedContent := formatData P v
    let size := formattedContent.utf8ByteSize
    if 0 < cfg.maxSize ∧ cfg.maxSize < size then
      pushError st ("Content size is over a " ++ key)
    else
      let filePath := P.md5hex key ++ ".kncch"
      let toWrite :=
        if opts.compress.getD false || cfg.autoCompress then
          compressData P formattedContent
        else formattedContent
      if fsWriteOk then
        let dt : DataMetadata :=
          { path := filePath
            size := size
            type := typeOf v
            createdAt := now
            updatedAt := now
            options := mergedOptions cfg opts }
        let st1 : CacheState P.Obj P.Num :=
          { st with
            files := alSet st.files filePath toWrite
            data := alSet st.data key dt }
        let st2 : CacheState P.Obj P.Num :=
          match opts.search with
          | some tags =>
            if tags.length ≠ 0 then
              { st1 with dict := tags.foldl (fun d t => Dict.addToDict d t key) st1.dict }
            else st1
          | none => st1
        let expire := if opts.expire.getD 0 = 0 then cfg.expire else opts.expire.getD 0
        if 0 < expire then deleteAfterTimeout st2 filePath key expire
        else clearDeleteTimeout st2 key
      else pushError st ("outputFile failed at key: " ++ key)

/-- Translation of get (src/index.ts lines 263-293).  A buffer hit
returns the buffered value with lastAccessed refreshed; otherwise the
metadata is consulted (absence is reported and undefined returned), the
file is read (fsReadOk models fs.readFile success), decompressed when the
entry was stored compressed, reformatted by the recorded type tag, and
the decoded value is placed in the buffer before being returned.  Every
failure is caught, reported, and resolves to none. -/
def get (P : Platform) (st : CacheState P.Obj P.Num) (now : Nat) (key : String)
    (fsReadOk : Bool) : CacheState P.Obj P.Num × Option (JsValue P.Obj P.Num) :=
  match bufLookup st.buffer key with
  | some e =>
    ({ st with buffer := bufSet st.buffer key e.value now }, some e.value)
  | none =>
    match alGet st.data key with
    | none => (pushError st "Key does not exist", none)
    | some metadata =>
      match (if fsReadOk then alGet st.files metadata.path else none) with
      | none => (pushError st ("readFile failed at key: " ++ key), none)
      | some raw =>
        match (if metadata.options.compress then uncompressData P raw else some raw) with
        | none => (pushError st ("uncompress failed at key: " ++ key), none)
        | some formatted =>
          match reformatData P formatted metadata.type with
          | none => (pushError st ("reformat failed at key: " ++ key), none)
          | some v =>
            ({ st with buffer := bufSet st.buffer key v now }, some v)

/-- Translation of del (src/index.ts lines 305-334).  An absent key is a
logged no-op.  For a present entry the timer is cleared only when the
recorded options.expire is positive; then fs.remove runs (fsRemoveOk
models its outcome): on success the file disappears, deleteMetadata runs
and the buffer entry is evicted, on failure the error is reported and no
metadata is touched. -/
def del {O Nm : Type} (st : CacheState O Nm) (key : String) (fsRemoveOk : Bool) :
    CacheState O Nm :=
  match alGet st.data key with
  | none => st
  | some metadata =>
    let st1 := if 0 < metadata.options.expire then clearDeleteTimeout st key else st
    if fsRemoveOk then
      let st2 : CacheState O Nm := { st1 with files := alDel st1.files metadata.path }
      let st3 := deleteMetadata st2 key
      { st3 with buffer := bufDel st3.buffer key }
    else
      pushError st1 ("Error deleting cache at " ++ metadata.path)

/-- Translation of CacheFile.search (src/index.ts lines 347-349): a pure
delegation to Dict.search. -/
def search (d : Dict) (keywords : List String) (logic : String) : List String :=
  Dict.search d keywords logic

/-- CacheFile.search with the logic argument omitted: the TypeScript
default parameter of CacheFile.search is AND (src/index.ts line 347). -/
def searchOmittedLogic (d : Dict) (keywords : List String) : List String :=
  search d keywords "AND"

/-- The expiry timer firing for a key (the setTimeout closure in
deleteAfterTimeout, src/index.ts lines 508-514): the closure only posts
the deletion request to the worker; neither the timer map nor the
metadata is touched at firing time. -/
def timerFire {O Nm : Type} (st : CacheState O Nm) (key : String) : CacheState O Nm :=
  match alGet st.timers key with
  | none => st
  | some t => { st with pending := st.pending.concat ⟨t.filePath, key⟩ }

/-- The worker completing a posted deletion request and the message
handler installed in the constructor (src/index.ts lines 118-125): the
worker attempts fs.remove (fsRemoveOk models its outcome) and reports;
on a success message the handler runs deleteMetadata, on an error message
it only logs. -/
def workerMessage {O Nm : Type} (st : CacheState O Nm) (m : WorkerMsg)
    (fsRemoveOk : Bool) : CacheState O Nm :=
  if fsRemoveOk then
    deleteMetadata
      { st with files := alDel st.files m.filePath, pending := st.pending.erase m }
      m.key
  else
    { st with pending := st.pending.erase m }

/-- The timer-arming loop of setup over the loaded metadata entries
(src/index.ts lines 396-405): every entry with positive options.expire
gets a timer armed for the remaining time to live, clamped below by 1ms;
nothing else of the state is touched. -/
def setupArmTimers {O Nm : Type} (st : CacheState O Nm)
    (loaded : List (String × DataMetadata)) (currentDate : Int) : CacheState O Nm :=
  loaded.foldl (fun acc kv =>
    if 0 < kv.2.options.expire then
      let diff : Int := (kv.2.options.expire : Int) - (currentDate - (kv.2.updatedAt : Int))
      let expireT : Nat := if 0 < diff then diff.toNat else 1
      deleteAfterTimeout acc kv.2.path kv.1 expireT
    else acc) st

end CacheFile

/-! Concrete instantiation used to evaluate the model on explicit inputs:
the object and number representations are booleans with a two-symbol
serialization, the codec is the identity transform (a valid byte
transform whose decode inverts its encode), and the hash is the identity
map on keys. -/

/-- A small concrete platform for evaluating the model. -/
def testPlatform : Platform where
  Obj := Bool
  Num := Bool
  stringifyObj := fun o => cond o "T" "F"
  parseObj := fun s => if s = "T" then some true else if s = "F" then some false else none
  numToString := fun n => cond n "1" "0"
  parseNum := fun s => s == "1"
  compressStr := fun s => s
  uncompressStr := fun s => some s
  md5hex := fun s => s

/-- A set call with every option omitted. -/
def optsNone : SetOptions := ⟨none, none, none⟩

/-- A state holding one live entry under key k with an armed expiry
timer, as produced by a set with expire 50. -/
def stOneEntry : CacheState Bool Bool :=
  { data := [("k", { path := "k.kncch", size := 1, type := .str, createdAt := 0,
                     updatedAt := 0,
                     options := { expire := 50, compress := false, search := [] } })]
    dict := ⟨[]⟩
    buffer := none
    timers := [("k", ⟨"k.kncch", 50⟩)]
    files := [("k.kncch", "v")]
    pending := []
    errors := [] }

/-- An initial empty cache state. -/
def emptyState : CacheState Bool Bool :=
  { data := [], dict := ⟨[]⟩, buffer := none, timers := [], files := [],
    pending := [], errors := [] }

/-- Buffer lookup of a just-evicted key misses. -/
theorem bufLookup_bufDel_self {α : Type} (b : Option (BufferCache α)) (k : String) :
    bufLookup (bufDel b k) k = none := by
  cases b <;> simp [bufLookup, bufDel, alGet_alDel_self]

/-- C1 counterexample: in the state with one live entry whose timer has
just fired, the deletion request is in flight to the worker, yet exist
still answers true — the metadata entry is not removed at firing time,
contradicting the claim that it is removed synchronously when the timer
fires. -/
theorem C1_counterexample :
    (CacheFile.timerFire stOneEntry "k").pending = [⟨"k.kncch", "k"⟩]
    ∧ CacheFile.exist (CacheFile.timerFire stOneEntry "k") "k" = true := by
  decide

/-- C1 amended: the metadata entry is removed when the worker reports
successful file deletion, not when the timer fires.  After the success
message is processed, exist is false and get no longer returns the old
value; the timer firing itself leaves the metadata map and the buffer
untouched. -/
theorem C1_removal_on_worker_success (P : Platform) (st : CacheState P.Obj P.Num)
    (m : WorkerMsg) (k : String) (now : Nat) (fsReadOk : Bool)
    (hlive : (alGet st.data m.key).isSome = true) :
    CacheFile.exist (CacheFile.workerMessage st m true) m.key = false
    ∧ (CacheFile.timerFire st k).data = st.data
    ∧ (CacheFile.timerFire st k).buffer = st.buffer
    ∧ (CacheFile.get P (CacheFile.workerMessage st m true) now m.key fsReadOk).2 = none := by
  cases hd : alGet st.data m.key with
  | none => rw [hd] at hlive; simp at hlive
  | some md =>
    refine ⟨?_, ?_, ?_, ?_⟩
    · simp [CacheFile.workerMessage, CacheFile.deleteMetadata, CacheFile.exist, hd]
    · unfold CacheFile.timerFire
      cases alGet st.timers k <;> rfl
    · unfold CacheFile.timerFire
      cases alGet st.timers k <;> rfl
    · simp only [CacheFile.workerMessage, if_pos]
      simp only [CacheFile.deleteMetadata, hd]
      simp [CacheFile.get, bufLookup_bufDel_self, alGet_alDel_self]

/-- C1 witness: the amended theorem evaluated on the one-entry state with
its in-flight deletion reported successful. -/
theorem C1_witness :
    (alGet stOneEntry.data "k").isSome = true
    ∧ (CacheFile.exist (CacheFile.workerMessage stOneEntry ⟨"k.kncch", "k"⟩ true) "k" = false
       ∧ (CacheFile.timerFire stOneEntry "x").data = stOneEntry.data
       ∧ (CacheFile.timerFire stOneEntry "x").buffer = stOneEntry.buffer
       ∧ (CacheFile.get testPlatform (CacheFile.workerMessage stOneEntry ⟨"k.kncch", "k"⟩ true) 0 "k" true).2 = none) :=
  ⟨by decide,
   C1_removal_on_worker_success testPlatform stOneEntry ⟨"k.kncch", "k"⟩ "x" 0 true (by decide)⟩

/-- C2 counterexample: deleting the live entry while the file removal
fails leaves the key present — exist still answers true after del
returns, contradicting the claim that logical removal proceeds on
file-delete failure. -/
theorem C2_counterexample :
    CacheFile.exist (CacheFile.del stOneEntry "k" false) "k" = true
    ∧ (CacheFile.del stOneEntry "k" false).errors = ["Error deleting cache at k.kncch"] := by
  decide

/-- C2 amended: when the underlying file deletion fails, del reports the
failure through the error sink and leaves the Metadata Store, the
Keyword Index, the Hot-Read Buffer and the file map unchanged — logical
removal does not proceed; it proceeds exactly when the file deletion
succeeds, after which exist is false. -/
theorem C2_del_failure_keeps_entry {O Nm : Type} (st : CacheState O Nm) (k : String) :
    (CacheFile.del st k false).data = st.data
    ∧ (CacheFile.del st k false).dict = st.dict
    ∧ (CacheFile.del st k false).buffer = st.buffer
    ∧ (CacheFile.del st k false).files = st.files
    ∧ (∀ md, alGet st.data k = some md →
        (CacheFile.del st k false).errors = st.errors.concat ("Error deleting cache at " ++ md.path))
    ∧ CacheFile.exist (CacheFile.del st k true) k = false := by
  cases hd : alGet st.data k with
  | none =>
    simp [CacheFile.del, CacheFile.exist, hd]
  | some md =>
    by_cases he : 0 < md.options.expire <;>
      simp [CacheFile.del, CacheFile.exist, CacheFile.clearDeleteTimeout,
        CacheFile.deleteMetadata, pushError, hd, he, alGet_alDel_self]

/-- The configuration defaults of the source (configDefault in
src/index.ts lines 61-75, restricted to the modelled fields). -/
def configDefault : ConfigType :=
  { expire := 0, autoCompress := false, peakDuration := 3000, maxSize := 0 }

/-- Field-level description of a successful set call (defined content,
size within the configured ceiling, file write succeeded): the metadata
record is upserted with both timestamps set to now, the buffer is left
untouched, the file receives the formatted and possibly compressed
bytes, and the timer map is re-armed or cleared according to the
effective expire. -/
theorem set_success_fields (P : Platform) (cfg : ConfigType) (st : CacheState P.Obj P.Num)
    (now : Nat) (key : String) (v : JsValue P.Obj P.Num) (opts : SetOptions)
    (hsize : ¬(0 < cfg.maxSize ∧ cfg.maxSize < (formatData P v).utf8ByteSize)) :
    (CacheFile.set P cfg st now key (some v) opts true).data =
      alSet st.data key
        { path := P.md5hex key ++ ".kncch"
          size := (formatData P v).utf8ByteSize
          type := typeOf v
          createdAt := now
          updatedAt := now
          options := mergedOptions cfg opts }
    ∧ (CacheFile.set P cfg st now key (some v) opts true).buffer = st.buffer
    ∧ (CacheFile.set P cfg st now key (some v) opts true).files =
        alSet st.files (P.md5hex key ++ ".kncch")
          (if opts.compress.getD false || cfg.autoCompress then
            compressData P (formatData P v)
          else formatData P v)
    ∧ (CacheFile.set P cfg st now key (some v) opts true).timers =
        (if 0 < (if opts.expire.getD 0 = 0 then cfg.expire else opts.expire.getD 0) then
          alSet (alDel st.timers key) key
            ⟨P.md5hex key ++ ".kncch",
             if opts.expire.getD 0 = 0 then cfg.expire else opts.expire.getD 0⟩
        else alDel st.timers key) := by
  unfold CacheFile.set
  simp only [if_neg hsize]
  cases hsr : opts.search with
  | none =>
    by_cases he : 0 < (if opts.expire.getD 0 = 0 then cfg.expire else opts.expire.getD 0) <;>
      simp [CacheFile.deleteAfterTimeout, CacheFile.clearDeleteTimeout, he]
  | some tags =>
    by_cases ht : tags.length ≠ 0 <;>
      by_cases he : 0 < (if opts.expire.getD 0 = 0 then cfg.expire else opts.expire.getD 0) <;>
        simp [CacheFile.deleteAfterTimeout, CacheFile.clearDeleteTimeout, he, ht]

/-- The timer map after any set call is either untouched, re-armed at the
written key, or cleared at the written key. -/
theorem set_timers_shape (P : Platform) (cfg : ConfigType) (st : CacheState P.Obj P.Num)
    (now : Nat) (key : String) (content : Option (JsValue P.Obj P.Num)) (opts : SetOptions)
    (w : Bool) :
    (CacheFile.set P cfg st now key content opts w).timers = st.timers
    ∨ (∃ e, (CacheFile.set P cfg st now key content opts w).timers =
        alSet (alDel st.timers key) key e)
    ∨ (CacheFile.set P cfg st now key content opts w).timers = alDel st.timers key := by
  cases content with
  | none => exact Or.inl rfl
  | some v =>
    by_cases hs : 0 < cfg.maxSize ∧ cfg.maxSize < (formatData P v).utf8ByteSize
    · left
      unfold CacheFile.set
      simp [if_pos hs, pushError]
    · cases w with
      | false =>
        left
        unfold CacheFile.set
        simp [if_neg hs, pushError]
      | true =>
        rcases set_success_fields P cfg st now key v opts hs with ⟨-, -, -, htimers⟩
        by_cases he : 0 < (if opts.expire.getD 0 = 0 then cfg.expire else opts.expire.getD 0)
        · right; left
          exact ⟨_, by rw [htimers, if_pos he]⟩
        · right; right
          rw [htimers, if_neg he]

/-- C2 witness: the amended theorem evaluated on the one-entry state. -/
theorem C2_witness :
    ((CacheFile.del stOneEntry "k" false).data = stOneEntry.data
    ∧ (CacheFile.del stOneEntry "k" false).dict = stOneEntry.dict
    ∧ (CacheFile.del stOneEntry "k" false).buffer = stOneEntry.buffer
    ∧ (CacheFile.del stOneEntry "k" false).files = stOneEntry.files
    ∧ (∀ md, alGet stOneEntry.data "k" = some md →
        (CacheFile.del stOneEntry "k" false).errors = stOneEntry.errors.concat ("Error deleting cache at " ++ md.path))
    ∧ CacheFile.exist (CacheFile.del stOneEntry "k" true) "k" = false) :=
  C2_del_failure_keeps_entry stOneEntry "k"

/-- A configuration with a store-wide default expiry of 100ms. -/
def cfgDefaultExpire : ConfigType :=
  { expire := 100, autoCompress := false, peakDuration := 3000, maxSize := 0 }

/-- The state after setting key k with no per-call options under the
store-wide default expiry. -/
def stDefaultExpire : CacheState Bool Bool :=
  CacheFile.set testPlatform cfgDefaultExpire emptyState 0 "k"
    (some (.vstr "v")) optsNone true

/-- C4 counterexample: a timer armed through the store-wide default
expiry (options.expire absent, config.expire = 100) survives del — after
del completes the entry is gone but the timer for the key is still
registered, contradicting the claim that del cancels the outstanding
timer however it was armed. -/
theorem C4_counterexample :
    alGet stDefaultExpire.timers "k" = some ⟨"k.kncch", 100⟩
    ∧ CacheFile.exist (CacheFile.del stDefaultExpire "k" true) "k" = false
    ∧ alGet (CacheFile.del stDefaultExpire "k" true).timers "k" = some ⟨"k.kncch", 100⟩ := by
  decide

/-- C4 amended: del cancels the outstanding timer only when the entry
records a positive per-call options.expire; a timer armed solely through
the store-wide default expiry (recorded options.expire = 0) is not
cancelled.  The at-most-one-timer-per-key invariant does hold: the timer
map keys stay duplicate-free across del and set. -/
theorem C4_del_cancels_only_explicit (P : Platform) (st : CacheState P.Obj P.Num)
    (k k2 : String) (md : DataMetadata) (fsRemoveOk w : Bool) (cfg : ConfigType)
    (now : Nat) (content : Option (JsValue P.Obj P.Num)) (opts : SetOptions)
    (hd : alGet st.data k = some md) (he : 0 < md.options.expire)
    (hnd : (st.timers.map Prod.fst).Nodup) :
    alGet (CacheFile.del st k fsRemoveOk).timers k = none
    ∧ ((CacheFile.del st k fsRemoveOk).timers.map Prod.fst).Nodup
    ∧ ((CacheFile.set P cfg st now k2 content opts w).timers.map Prod.fst).Nodup := by
  have hdel : (CacheFile.del st k fsRemoveOk).timers = alDel st.timers k := by
    cases fsRemoveOk <;>
      simp [CacheFile.del, hd, he, CacheFile.clearDeleteTimeout,
        CacheFile.deleteMetadata, pushError]
  refine ⟨?_, ?_, ?_⟩
  · rw [hdel]; exact alGet_alDel_self _ _
  · rw [hdel]; exact nodup_keys_alDel _ _ hnd
  · rcases set_timers_shape P cfg st now k2 content opts w with h | ⟨e, h⟩ | h
    · rw [h]; exact hnd
    · rw [h]; exact nodup_keys_alSet _ _ _ (nodup_keys_alDel _ _ hnd)
    · rw [h]; exact nodup_keys_alDel _ _ hnd

/-- C4 witness: the amended theorem evaluated on the one-entry state,
whose entry was stored with an explicit expire of 50. -/
theorem C4_witness :
    alGet stOneEntry.data "k" =
      some { path := "k.kncch", size := 1, type := .str, createdAt := 0, updatedAt := 0,
             options := { expire := 50, compress := false, search := [] } }
    ∧ 0 < (50 : Nat)
    ∧ (stOneEntry.timers.map Prod.fst).Nodup
    ∧ (alGet (CacheFile.del stOneEntry "k" true).timers "k" = none
       ∧ ((CacheFile.del stOneEntry "k" true).timers.map Prod.fst).Nodup
       ∧ ((CacheFile.set testPlatform configDefault stOneEntry 1 "j"
            (some (.vstr "w")) optsNone true).timers.map Prod.fst).Nodup) :=
  ⟨by decide, by decide, by decide,
   C4_del_cancels_only_explicit testPlatform stOneEntry "k" "j"
     { path := "k.kncch", size := 1, type := .str, createdAt := 0, updatedAt := 0,
       options := { expire := 50, compress := false, search := [] } }
     true true configDefault 1
     (some (.vstr "w")) optsNone (by decide) (by decide) (by decide)⟩

/-- A configuration with a 2-byte content ceiling. -/
def cfgMax : ConfigType :=
  { expire := 0, autoCompress := false, peakDuration := 3000, maxSize := 2 }

/-- C6 counterexample: with maxSize 2 and 3-byte content, set reports the
size violation and aborts — no file is written, no metadata entry is
created and exist stays false, contradicting the claim that the write
still proceeds. -/
theorem C6_counterexample :
    CacheFile.exist
      (CacheFile.set testPlatform cfgMax emptyState 0 "k" (some (.vstr "abc")) optsNone true)
      "k" = false
    ∧ (CacheFile.set testPlatform cfgMax emptyState 0 "k"
        (some (.vstr "abc")) optsNone true).files = []
    ∧ (CacheFile.set testPlatform cfgMax emptyState 0 "k"
        (some (.vstr "abc")) optsNone true).errors = ["Content size is over a k"] := by
  decide

/-- C6 amended: when a positive maximum size is configured and the byte
length of the serialized content exceeds it, set reports the violation
through the error sink and returns without writing: the resulting state
is the input state plus the error message, so no file is written, no
metadata entry is upserted, and exist is unchanged (false for a
previously absent key). -/
theorem C6_size_violation_aborts (P : Platform) (cfg : ConfigType)
    (st : CacheState P.Obj P.Num) (now : Nat) (key : String) (v : JsValue P.Obj P.Num)
    (opts : SetOptions) (w : Bool)
    (hmax : 0 < cfg.maxSize) (hover : cfg.maxSize < (formatData P v).utf8ByteSize) :
    CacheFile.set P cfg st now key (some v) opts w =
      pushError st ("Content size is over a " ++ key)
    ∧ CacheFile.exist (CacheFile.set P cfg st now key (some v) opts w) key
        = CacheFile.exist st key := by
  have h : CacheFile.set P cfg st now key (some v) opts w =
      pushError st ("Content size is over a " ++ key) := by
    unfold CacheFile.set
    simp [if_pos (And.intro hmax hover)]
  exact ⟨h, by rw [h]; rfl⟩

/-- C6 witness: the amended theorem evaluated on the empty state with the
2-byte ceiling and 3-byte content. -/
theorem C6_witness :
    0 < cfgMax.maxSize
    ∧ cfgMax.maxSize < (formatData testPlatform (.vstr "abc")).utf8ByteSize
    ∧ (CacheFile.set testPlatform cfgMax emptyState 0 "k" (some (.vstr "abc")) optsNone true =
        pushError emptyState ("Content size is over a k")
       ∧ CacheFile.exist
           (CacheFile.set testPlatform cfgMax emptyState 0 "k" (some (.vstr "abc")) optsNone true)
           "k" = CacheFile.exist emptyState "k") :=
  ⟨by decide, by decide,
   C6_size_violation_aborts testPlatform cfgMax emptyState 0 "k" (.vstr "abc") optsNone true
     (by decide) (by decide)⟩

/-- The state after a first write of key k at time 10. -/
def stFirstWrite : CacheState Bool Bool :=
  CacheFile.set testPlatform configDefault emptyState 10 "k" (some (.vstr "a")) optsNone true

/-- The state after overwriting key k at time 20. -/
def stOverwrite : CacheState Bool Bool :=
  CacheFile.set testPlatform configDefault stFirstWrite 20 "k" (some (.vstr "b")) optsNone true

/-- C9 counterexample: the first write at time 10 records createdAt 10,
but the overwrite at time 20 records createdAt 20 — the second set does
not preserve the createdAt of the first, contradicting the claim. -/
theorem C9_counterexample :
    (alGet stFirstWrite.data "k").map DataMetadata.createdAt = some 10
    ∧ (alGet stOverwrite.data "k").map DataMetadata.createdAt = some 20 := by
  decide

/-- C9 amended: a successful set (first write or overwrite) replaces the
whole metadata record: updatedAt, sizeBytes, type, compressed and
searchTags are refreshed, and createdAt is also reset to the time of this
write — it is not preserved from the first write. -/
theorem C9_set_resets_createdAt (P : Platform) (cfg : ConfigType)
    (st : CacheState P.Obj P.Num) (now : Nat) (key : String) (v : JsValue P.Obj P.Num)
    (opts : SetOptions)
    (hsize : ¬(0 < cfg.maxSize ∧ cfg.maxSize < (formatData P v).utf8ByteSize)) :
    alGet (CacheFile.set P cfg st now key (some v) opts true).data key =
      some { path := P.md5hex key ++ ".kncch"
             size := (formatData P v).utf8ByteSize
             type := typeOf v
             createdAt := now
             updatedAt := now
             options := mergedOptions cfg opts } := by
  rw [(set_success_fields P cfg st now key v opts hsize).1]
  exact alGet_alSet_self _ _ _

/-- C9 witness: the amended theorem evaluated on the overwrite at time
20, showing the freshly recorded timestamps. -/
theorem C9_witness :
    ¬(0 < configDefault.maxSize
      ∧ configDefault.maxSize < (formatData testPlatform (.vstr "b")).utf8ByteSize)
    ∧ alGet stOverwrite.data "k" =
        some { path := "k.kncch", size := 1, type := .str, createdAt := 20, updatedAt := 20,
               options := { expire := 0, compress := false, search := [] } } :=
  ⟨by decide,
   C9_set_resets_createdAt testPlatform configDefault stFirstWrite 20 "k" (.vstr "b") optsNone
     (by decide)⟩

/-- Unfolding one step of the setup timer-arming loop. -/
theorem setupArmTimers_cons {O Nm : Type} (st : CacheState O Nm)
    (p : String × DataMetadata) (rest : List (String × DataMetadata)) (cd : Int) :
    CacheFile.setupArmTimers st (p :: rest) cd =
      CacheFile.setupArmTimers
        (if 0 < p.2.options.expire then
          CacheFile.deleteAfterTimeout st p.2.path p.1
            (if 0 < (p.2.options.expire : Int) - (cd - (p.2.updatedAt : Int))
             then ((p.2.options.expire : Int) - (cd - (p.2.updatedAt : Int))).toNat
             else 1)
        else st) rest cd := by
  unfold CacheFile.setupArmTimers
  rw [List.foldl_cons]

/-- The setup timer-arming loop never touches the metadata map or the
cache folder: arming timers is its only effect. -/
theorem setupArmTimers_frame {O Nm : Type} (loaded : List (String × DataMetadata))
    (st : CacheState O Nm) (cd : Int) :
    (CacheFile.setupArmTimers st loaded cd).data = st.data
    ∧ (CacheFile.setupArmTimers st loaded cd).files = st.files := by
  induction loaded generalizing st with
  | nil => exact ⟨rfl, rfl⟩
  | cons p rest ih =>
    rw [setupArmTimers_cons]
    by_cases hp : 0 < p.2.options.expire
    · rw [if_pos hp]
      exact ih _
    · rw [if_neg hp]
      exact ih st

/-- Keys not named in the loaded metadata keep their timer-map entry
through the setup timer-arming loop. -/
theorem setupArmTimers_timers_notmem {O Nm : Type} (loaded : List (String × DataMetadata))
    (st : CacheState O Nm) (cd : Int) (key : String)
    (h : key ∉ loaded.map Prod.fst) :
    alGet (CacheFile.setupArmTimers st loaded cd).timers key = alGet st.timers key := by
  induction loaded generalizing st with
  | nil => rfl
  | cons p rest ih =>
    simp only [List.map_cons, List.mem_cons] at h
    push_neg at h
    rw [setupArmTimers_cons]
    by_cases hp : 0 < p.2.options.expire
    · rw [if_pos hp, ih _ h.2]
      show alGet (alSet (alDel st.timers p.1) p.1 _) key = alGet st.timers key
      rw [alGet_alSet_ne _ _ _ _ (Ne.symm h.1), alGet_alDel_ne _ _ _ (Ne.symm h.1)]
    · rw [if_neg hp]
      exact ih st h.2

/-- C7: on startup load, every persisted entry with a positive expiry
gets a timer armed for the remaining time to live, computed as expire
minus the elapsed time since updatedAt and clamped below by 1ms when
already elapsed; the loop never deletes an entry or a file directly —
the metadata map and the folder contents are untouched. -/
theorem C7_setup_arms_clamped_timer {O Nm : Type} (st : CacheState O Nm)
    (loaded : List (String × DataMetadata)) (cd : Int) (key : String) (md : DataMetadata)
    (hnd : (loaded.map Prod.fst).Nodup) (hmem : (key, md) ∈ loaded)
    (hexp : 0 < md.options.expire) :
    alGet (CacheFile.setupArmTimers st loaded cd).timers key =
      some ⟨md.path,
        if 0 < (md.options.expire : Int) - (cd - (md.updatedAt : Int))
        then ((md.options.expire : Int) - (cd - (md.updatedAt : Int))).toNat
        else 1⟩
    ∧ (CacheFile.setupArmTimers st loaded cd).data = st.data
    ∧ (CacheFile.setupArmTimers st loaded cd).files = st.files := by
  refine ⟨?_, (setupArmTimers_frame loaded st cd).1, (setupArmTimers_frame loaded st cd).2⟩
  induction loaded generalizing st with
  | nil => simp at hmem
  | cons p rest ih =>
    obtain ⟨k1, md1⟩ := p
    simp only [List.map_cons, List.nodup_cons] at hnd
    rcases List.mem_cons.1 hmem with hhead | htail
    · have hk : k1 = key := (Prod.ext_iff.1 hhead.symm).1
      have hm : md1 = md := (Prod.ext_iff.1 hhead.symm).2
      subst hk
      subst hm
      rw [setupArmTimers_cons]
      rw [if_pos hexp]
      rw [setupArmTimers_timers_notmem rest _ cd k1 hnd.1]
      show alGet (alSet (alDel st.timers k1) k1 _) k1 = _
      rw [alGet_alSet_self]
    · rw [setupArmTimers_cons]
      exact ih _ hnd.2 htail

/-- A metadata record with expire 5ms last updated at time 100. -/
def mdExpire5 : DataMetadata :=
  { path := "k.kncch", size := 1, type := .str, createdAt := 100, updatedAt := 100,
    options := { expire := 5, compress := false, search := [] } }

/-- A stale metadata record with expire 5ms last updated at time 0. -/
def mdStale : DataMetadata :=
  { path := "s.kncch", size := 1, type := .str, createdAt := 0, updatedAt := 0,
    options := { expire := 5, compress := false, search := [] } }

/-- C7 witness: loading two entries at time 103 — one with 2ms left,
armed for 2ms, and one long expired, armed with the 1ms clamp. -/
theorem C7_witness :
    ((([("k", mdExpire5), ("s", mdStale)] : List (String × DataMetadata)).map Prod.fst).Nodup
     ∧ ("k", mdExpire5) ∈ [("k", mdExpire5), ("s", mdStale)]
     ∧ 0 < mdExpire5.options.expire)
    ∧ alGet (CacheFile.setupArmTimers emptyState [("k", mdExpire5), ("s", mdStale)] 103).timers "k"
        = some ⟨"k.kncch", 2⟩
    ∧ alGet (CacheFile.setupArmTimers emptyState [("k", mdExpire5), ("s", mdStale)] 103).timers "s"
        = some ⟨"s.kncch", 1⟩ := by
  refine ⟨⟨by decide, by decide, by decide⟩, ?_, by decide⟩
  have h := C7_setup_arms_clamped_timer emptyState [("k", mdExpire5), ("s", mdStale)] 103 "k"
    mdExpire5 (by decide) (by decide) (by decide)
  rw [h.1]
  decide

/-- Membership in the AND reduce of Dict.search: a key survives the fold
exactly when it is in the initial accumulator and in every keyword set. -/
theorem mem_interFold (sets : List (List String)) (init : List String) (k : String) :
    k ∈ sets.foldl interStep init ↔ k ∈ init ∧ ∀ s ∈ sets, k ∈ s := by
  induction sets generalizing init with
  | nil => simp
  | cons s rest ih =>
    rw [List.foldl_cons, ih]
    simp only [interStep, List.mem_filter, List.forall_mem_cons, decide_eq_true_eq]
    tauto

/-- Membership in one OR step of Dict.search: adding a set to the
accumulator without duplicates. -/
theorem mem_unionStep (s acc : List String) (k : String) :
    k ∈ unionStep acc s ↔ k ∈ acc ∨ k ∈ s := by
  induction s generalizing acc with
  | nil => simp [unionStep]
  | cons v vs ih =>
    have hstep : ∀ x : String, x ∈ (if v ∈ acc then acc else acc.concat v) ↔ x ∈ acc ∨ x = v := by
      intro x
      by_cases hv : v ∈ acc
      · rw [if_pos hv]
        exact ⟨Or.inl, fun h => h.elim id (fun hx => hx ▸ hv)⟩
      · rw [if_neg hv]
        simp [List.concat_eq_append]
    have h1 : unionStep acc (v :: vs) = unionStep (if v ∈ acc then acc else acc.concat v) vs := rfl
    rw [h1, ih, hstep k, List.mem_cons]
    tauto

/-- Membership in the OR reduce of Dict.search: a key appears in the fold
exactly when it is in the initial accumulator or in some keyword set. -/
theorem mem_unionFold (sets : List (List String)) (init : List String) (k : String) :
    k ∈ sets.foldl unionStep init ↔ k ∈ init ∨ ∃ s ∈ sets, k ∈ s := by
  induction sets generalizing init with
  | nil => simp
  | cons s rest ih =>
    rw [List.foldl_cons, ih, mem_unionStep]
    constructor
    · rintro ((h | h) | ⟨s', hs', hk⟩)
      · exact Or.inl h
      · exact Or.inr ⟨s, List.mem_cons_self s rest, h⟩
      · exact Or.inr ⟨s', List.mem_cons_of_mem _ hs', hk⟩
    · rintro (h | ⟨s', hs', hk⟩)
      · exact Or.inl (Or.inl h)
      · rcases List.mem_cons.1 hs' with rfl | hs'
        · exact Or.inl (Or.inr hk)
        · exact Or.inr ⟨s', hs', hk⟩

/-- C5 counterexample: with the key k1 tagged a and the key k2 tagged b,
the engine-level search with the logic argument omitted returns the AND
result [] while OR semantics would return both keys — omitted logic does
not default to OR at the CacheFile.search level, contradicting the
claim. -/
theorem C5_counterexample :
    CacheFile.searchOmittedLogic ⟨[("a", ["k1"]), ("b", ["k2"])]⟩ ["a", "b"] = []
    ∧ Dict.search ⟨[("a", ["k1"]), ("b", ["k2"])]⟩ ["a", "b"] "OR" = ["k1", "k2"] := by
  decide

/-- C5 amended: search obeys the Keyword Index contract except for the
engine-level default: an empty keyword list returns an empty result;
logic AND returns exactly the intersection of the keyword sets (an
unknown keyword contributing the empty set); any logic value other than
AND — including unknown values and the Dict-level omitted default, which
is OR — returns the union, never an error; but the logic argument
omitted at the CacheFile.search level defaults to AND, not OR. -/
theorem C5_search_semantics (d : Dict) (kws : List String) (logic k : String) :
    Dict.search d [] logic = []
    ∧ (k ∈ Dict.search d kws "AND" ↔ kws ≠ [] ∧ ∀ t ∈ kws, k ∈ dictGet d t)
    ∧ (logic ≠ "AND" → (k ∈ Dict.search d kws logic ↔ ∃ t ∈ kws, k ∈ dictGet d t))
    ∧ CacheFile.searchOmittedLogic d kws = Dict.search d kws "AND"
    ∧ Dict.searchOmittedLogic d kws = Dict.search d kws "OR" := by
  refine ⟨rfl, ?_, ?_, rfl, rfl⟩
  · cases kws with
    | nil => simp [Dict.search]
    | cons t0 ts =>
      have heq : Dict.search d (t0 :: ts) "AND" =
          ((dictGet d t0) :: ts.map (fun t => dictGet d t)).foldl interStep (dictGet d t0) := by
        unfold Dict.search
        simp
      rw [heq, mem_interFold]
      simp only [List.forall_mem_cons, ne_eq, List.cons_ne_nil, not_false_iff, true_and,
        List.forall_mem_map]
      constructor
      · rintro ⟨h0, -, hrest⟩
        exact ⟨h0, fun t ht => hrest t ht⟩
      · rintro ⟨h0, hrest⟩
        exact ⟨h0, h0, fun t ht => hrest t ht⟩
  · intro hlogic
    cases kws with
    | nil => simp [Dict.search]
    | cons t0 ts =>
      unfold Dict.search
      simp only [List.length_cons, List.map_cons, if_neg (Nat.succ_ne_zero ts.length),
        if_neg hlogic]
      rw [mem_unionFold]
      constructor
      · rintro (h | ⟨s, hs, hk⟩)
        · simp at h
        · rcases List.mem_cons.1 hs with rfl | hs
          · exact ⟨t0, List.mem_cons_self t0 ts, hk⟩
          · rcases List.mem_map.1 hs with ⟨t, ht, rfl⟩
            exact ⟨t, List.mem_cons_of_mem _ ht, hk⟩
      · rintro ⟨t, ht, hk⟩
        rcases List.mem_cons.1 ht with rfl | ht
        · exact Or.inr ⟨dictGet d t, List.mem_cons_self _ _, hk⟩
        · exact Or.inr ⟨dictGet d t, List.mem_cons_of_mem _ (List.mem_map_of_mem _ ht), hk⟩

/-- C5 witness: the amended theorem evaluated on the two-tag index. -/
theorem C5_witness :
    Dict.search ⟨[("a", ["k1"]), ("b", ["k2"])]⟩ [] "OR" = []
    ∧ ("k1" ∈ Dict.search ⟨[("a", ["k1"]), ("b", ["k2"])]⟩ ["a", "b"] "AND" ↔
        (["a", "b"] : List String) ≠ []
        ∧ ∀ t ∈ (["a", "b"] : List String), "k1" ∈ dictGet ⟨[("a", ["k1"]), ("b", ["k2"])]⟩ t)
    ∧ ("OR" ≠ "AND" → ("k1" ∈ Dict.search ⟨[("a", ["k1"]), ("b", ["k2"])]⟩ ["a", "b"] "OR" ↔
        ∃ t ∈ (["a", "b"] : List String), "k1" ∈ dictGet ⟨[("a", ["k1"]), ("b", ["k2"])]⟩ t))
    ∧ CacheFile.searchOmittedLogic ⟨[("a", ["k1"]), ("b", ["k2"])]⟩ ["a", "b"]
        = Dict.search ⟨[("a", ["k1"]), ("b", ["k2"])]⟩ ["a", "b"] "AND"
    ∧ Dict.searchOmittedLogic ⟨[("a", ["k1"]), ("b", ["k2"])]⟩ ["a", "b"]
        = Dict.search ⟨[("a", ["k1"]), ("b", ["k2"])]⟩ ["a", "b"] "OR" :=
  C5_search_semantics ⟨[("a", ["k1"]), ("b", ["k2"])]⟩ ["a", "b"] "OR" "k1"

/-- The removeValue step keeps the keyword of an entry it retains. -/
theorem rmStep_key (v : String) (kv p : String × List String)
    (h : rmStep v kv = some p) : p.1 = kv.1 := by
  unfold rmStep at h
  by_cases h1 : v ∈ kv.2
  · rw [if_pos h1] at h
    by_cases h2 : kv.2.erase v = []
    · rw [if_pos h2] at h
      cases h
    · rw [if_neg h2] at h
      cases h
      rfl
  · rw [if_neg h1] at h
    cases h
    rfl

/-- A keyword absent from the index stays absent after removeValue. -/
theorem alGet_removeValue_none (l : List (String × List String)) (v t : String)
    (h : alGet l t = none) : alGet (l.filterMap (rmStep v)) t = none := by
  induction l with
  | nil => rfl
  | cons a rest ih =>
    have ha : ¬a.1 = t := by
      intro hc
      simp [alGet, hc] at h
    have hrest : alGet rest t = none := by
      simpa [alGet, ha] using h
    rw [List.filterMap_cons]
    cases hf : rmStep v a with
    | none => exact ih hrest
    | some p =>
      have : ¬p.1 = t := by rw [rmStep_key v a p hf]; exact ha
      simpa [alGet, this] using ih hrest

/-- When a keyword maps to exactly the singleton set of the removed
value, removeValue drops the keyword entirely (assuming the JS Map has
no duplicate keys). -/
theorem alGet_removeValue_single (l : List (String × List String)) (k t : String)
    (hnd : (l.map Prod.fst).Nodup) (h : alGet l t = some [k]) :
    alGet (l.filterMap (rmStep k)) t = none := by
  induction l with
  | nil => cases h
  | cons a rest ih =>
    simp only [List.map_cons, List.nodup_cons] at hnd
    rw [List.filterMap_cons]
    by_cases ha : a.1 = t
    · have ha2 : a.2 = [k] := by
        simp [alGet, ha] at h
        exact h
      have hf : rmStep k a = none := by
        unfold rmStep
        rw [ha2]
        simp
      rw [hf]
      apply alGet_removeValue_none
      cases hrest : alGet rest t with
      | none => rfl
      | some s =>
        exfalso
        apply hnd.1
        rw [ha]
        clear ih h ha2 hf hnd ha
        induction rest with
        | nil => cases hrest
        | cons b rr ihr =>
          by_cases hb : b.1 = t
          · exact hb ▸ List.mem_cons_self _ _
          · simp only [alGet, if_neg hb] at hrest
            exact List.mem_cons_of_mem _ (ihr hrest)
    · have hrest : alGet rest t = some [k] := by
        simpa [alGet, ha] using h
      cases hf : rmStep k a with
      | none => exact ih hnd.2 hrest
      | some p =>
        have hp : ¬p.1 = t := by rw [rmStep_key k a p hf]; exact ha
        simpa [alGet, hp] using ih hnd.2 hrest

/-- Entries surviving removeValue no longer contain the removed value
and are never empty, given the JS Set invariants of the source index
(per-set no duplicates, no empty sets stored). -/
theorem removeValue_clean (d : Dict) (v : String)
    (hsets : ∀ p ∈ d.index, p.2.Nodup) (hne : ∀ p ∈ d.index, p.2 ≠ []) :
    ∀ p ∈ (Dict.removeValue d v).index, v ∉ p.2 ∧ p.2 ≠ [] := by
  intro p hp
  rcases List.mem_filterMap.1 hp with ⟨a, ha, hf⟩
  unfold rmStep at hf
  by_cases h1 : v ∈ a.2
  · rw [if_pos h1] at hf
    by_cases h2 : a.2.erase v = []
    · rw [if_pos h2] at hf
      cases hf
    · rw [if_neg h2] at hf
      cases hf
      refine ⟨fun hc => ?_, h2⟩
      rcases ((hsets a ha).mem_erase_iff).1 hc with ⟨hne2, -⟩
      exact hne2 rfl
  · rw [if_neg h1] at hf
    obtain rfl : a = p := Option.some.inj hf
    exact ⟨h1, hne a ha⟩

/-- A search for a single keyword that is absent from the index returns
the empty list under any logic value. -/
theorem search_single_absent (d : Dict) (t logic : String)
    (h : alGet d.index t = none) : Dict.search d [t] logic = [] := by
  by_cases hl : logic = "AND" <;>
    simp [Dict.search, dictGet, h, hl, interStep, unionStep]

/-- C8: removing a key from the Keyword Index removes it from every
keyword set and deletes every keyword whose set thereby becomes empty,
so no empty-set entries persist; in particular after del(k) succeeds
where k was the only key under tag t, a search for t returns the empty
result.  The hypotheses are the JS Map/Set representation invariants of
the source index: unique keywords, duplicate-free sets, no stored empty
set. -/
theorem C8_delete_cleans_index {O Nm : Type} (st : CacheState O Nm)
    (k t logic : String) (md : DataMetadata)
    (hkeys : (st.dict.index.map Prod.fst).Nodup)
    (hsets : ∀ p ∈ st.dict.index, p.2.Nodup)
    (hne : ∀ p ∈ st.dict.index, p.2 ≠ [])
    (hsingle : alGet st.dict.index t = some [k])
    (hdata : alGet st.data k = some md) :
    (∀ p ∈ (Dict.removeValue st.dict k).index, k ∉ p.2 ∧ p.2 ≠ [])
    ∧ alGet (Dict.removeValue st.dict k).index t = none
    ∧ (CacheFile.del st k true).dict = Dict.removeValue st.dict k
    ∧ CacheFile.search (CacheFile.del st k true).dict [t] logic = [] := by
  have hdict : (CacheFile.del st k true).dict = Dict.removeValue st.dict k := by
    by_cases he : 0 < md.options.expire <;>
      simp [CacheFile.del, CacheFile.clearDeleteTimeout, CacheFile.deleteMetadata,
        hdata, he]
  have hnone : alGet (Dict.removeValue st.dict k).index t = none :=
    alGet_removeValue_single st.dict.index k t hkeys hsingle
  refine ⟨removeValue_clean st.dict k hsets hne, hnone, hdict, ?_⟩
  rw [hdict]
  exact search_single_absent _ t logic hnone

/-- A state holding one entry under key k tagged with the single keyword
t. -/
def stTagged : CacheState Bool Bool :=
  { data := [("k", { path := "k.kncch", size := 1, type := .str, createdAt := 0,
                     updatedAt := 0,
                     options := { expire := 0, compress := false, search := ["t"] } })]
    dict := ⟨[("t", ["k"])]⟩
    buffer := none
    timers := []
    files := [("k.kncch", "v")]
    pending := []
    errors := [] }

/-- C8 witness: the theorem evaluated on the one-entry index where k is
the only key under tag t. -/
theorem C8_witness :
    ((stTagged.dict.index.map Prod.fst).Nodup
     ∧ (∀ p ∈ stTagged.dict.index, p.2.Nodup)
     ∧ (∀ p ∈ stTagged.dict.index, p.2 ≠ [])
     ∧ alGet stTagged.dict.index "t" = some ["k"]
     ∧ (alGet stTagged.data "k").isSome = true)
    ∧ ((∀ p ∈ (Dict.removeValue stTagged.dict "k").index, "k" ∉ p.2 ∧ p.2 ≠ [])
       ∧ alGet (Dict.removeValue stTagged.dict "k").index "t" = none
       ∧ (CacheFile.del stTagged "k" true).dict = Dict.removeValue stTagged.dict "k"
       ∧ CacheFile.search (CacheFile.del stTagged "k" true).dict ["t"] "OR" = []) :=
  ⟨⟨by decide, by decide, by decide, by decide, by decide⟩,
   C8_delete_cleans_index stTagged "k" "t" "OR"
     { path := "k.kncch", size := 1, type := .str, createdAt := 0, updatedAt := 0,
       options := { expire := 0, compress := false, search := ["t"] } }
     (by decide) (by decide) (by decide) (by decide) (by decide)⟩

/-- Reformatting inverts formatting for every supported value shape,
given the inverse contracts of the external JSON and Number
serializers. -/
theorem reformatData_formatData (P : Platform)
    (hObj : ∀ o, P.parseObj (P.stringifyObj o) = some o)
    (hNum : ∀ n, P.parseNum (P.numToString n) = n)
    (v : JsValue P.Obj P.Num) :
    reformatData P (formatData P v) (typeOf v) = some v := by
  cases v with
  | vstr s => rfl
  | vnum n => simp [formatData, reformatData, typeOf, hNum]
  | vobj o => simp [formatData, reformatData, typeOf, hObj]

/-- C3: for every supported value shape and every key, get after set
(with no intervening mutation, a cold hot-read buffer for the key, and
no size ceiling configured) returns exactly the original value, whether
or not compression is enabled per call or store-wide — the
decompress-then-reformat pipeline inverts the format-then-compress
pipeline, given the inverse contracts of the external codec and
serializers. -/
theorem C3_roundtrip (P : Platform)
    (hObj : ∀ o, P.parseObj (P.stringifyObj o) = some o)
    (hNum : ∀ n, P.parseNum (P.numToString n) = n)
    (hCodec : ∀ s, P.uncompressStr (P.compressStr s) = some s)
    (cfg : ConfigType) (st : CacheState P.Obj P.Num) (now now2 : Nat) (key : String)
    (v : JsValue P.Obj P.Num) (opts : SetOptions)
    (hmax : cfg.maxSize = 0)
    (hbuf : bufLookup st.buffer key = none) :
    (CacheFile.get P (CacheFile.set P cfg st now key (some v) opts true) now2 key true).2
      = some v := by
  have hsize : ¬(0 < cfg.maxSize ∧ cfg.maxSize < (formatData P v).utf8ByteSize) := by
    rw [hmax]
    simp
  obtain ⟨hdata, hbuffer, hfiles, -⟩ := set_success_fields P cfg st now key v opts hsize
  have hbuf2 : bufLookup (CacheFile.set P cfg st now key (some v) opts true).buffer key
      = none := by
    rw [hbuffer]
    exact hbuf
  have hdata2 : alGet (CacheFile.set P cfg st now key (some v) opts true).data key =
      some { path := P.md5hex key ++ ".kncch"
             size := (formatData P v).utf8ByteSize
             type := typeOf v
             createdAt := now
             updatedAt := now
             options := mergedOptions cfg opts } := by
    rw [hdata]
    exact alGet_alSet_self _ _ _
  have hfiles2 : alGet (CacheFile.set P cfg st now key (some v) opts true).files
      (P.md5hex key ++ ".kncch") =
      some (if opts.compress.getD false || cfg.autoCompress then
              compressData P (formatData P v)
            else formatData P v) := by
    rw [hfiles]
    exact alGet_alSet_self _ _ _
  unfold CacheFile.get
  rw [hbuf2, hdata2]
  simp only [if_true]
  rw [hfiles2]
  by_cases hc : opts.compress.getD false || cfg.autoCompress
  · simp only [hc, if_pos, mergedOptions]
    rw [show (uncompressData P (compressData P (formatData P v))) =
        some (formatData P v) from hCodec (formatData P v)]
    simp [reformatData_formatData P hObj hNum v]
  · simp only [hc, mergedOptions]
    rw [if_neg (by simp [hc]), if_neg (by simp [hc])]
    simp [reformatData_formatData P hObj hNum v]

/-- C3 witness: the round trip evaluated on the concrete platform for an
object value stored with per-call compression enabled. -/
theorem C3_witness :
    (∀ o : Bool, testPlatform.parseObj (testPlatform.stringifyObj o) = some o)
    ∧ (∀ n : Bool, testPlatform.parseNum (testPlatform.numToString n) = n)
    ∧ (∀ s : String, testPlatform.uncompressStr (testPlatform.compressStr s) = some s)
    ∧ configDefault.maxSize = 0
    ∧ bufLookup emptyState.buffer "k" = none
    ∧ (CacheFile.get testPlatform
        (CacheFile.set testPlatform configDefault emptyState 0 "k"
          (some (.vobj true)) ⟨none, some true, none⟩ true) 1 "k" true).2
        = some (.vobj true) :=
  ⟨fun o => by cases o <;> rfl, fun n => by cases n <;> rfl, fun s => rfl, rfl, rfl,
   C3_roundtrip testPlatform (fun o => by cases o <;> rfl) (fun n => by cases n <;> rfl)
     (fun s => rfl) configDefault emptyState
     0 1 "k" (.vobj true) ⟨none, some true, none⟩ rfl rfl⟩

/-- C10: whenever get fails at any stage — the key is absent from the
metadata, the file read fails, decompression fails, or reformatting
fails — and the error sink returns normally, get resolves to none and
both the hot-read buffer and the metadata map are left exactly as they
were: a failed decode is never cached. -/
theorem C10_failed_get_leaves_buffer (P : Platform) (st : CacheState P.Obj P.Num)
    (now : Nat) (key : String) (fsReadOk : Bool)
    (h : (CacheFile.get P st now key fsReadOk).2 = none) :
    (CacheFile.get P st now key fsReadOk).1.buffer = st.buffer
    ∧ (CacheFile.get P st now key fsReadOk).1.data = st.data := by
  have hshape : (∃ msg, CacheFile.get P st now key fsReadOk = (pushError st msg, none))
      ∨ (∃ v, (CacheFile.get P st now key fsReadOk).2 = some v) := by
    unfold CacheFile.get
    split
    · right; exact ⟨_, rfl⟩
    · split
      · left; exact ⟨_, rfl⟩
      · split
        · left; exact ⟨_, rfl⟩
        · split
          · left; exact ⟨_, rfl⟩
          · split
            · left; exact ⟨_, rfl⟩
            · right; exact ⟨_, rfl⟩
  rcases hshape with ⟨msg, hm⟩ | ⟨v, hv⟩
  · rw [hm]
    exact ⟨rfl, rfl⟩
  · rw [h] at hv
    cases hv

/-- C10 witness: a get on the empty state fails with key absent, resolves
to none, and leaves the buffer and metadata untouched. -/
theorem C10_witness :
    (CacheFile.get testPlatform emptyState 0 "k" true).2 = none
    ∧ ((CacheFile.get testPlatform emptyState 0 "k" true).1.buffer = emptyState.buffer
       ∧ (CacheFile.get testPlatform emptyState 0 "k" true).1.data = emptyState.data) :=
  ⟨rfl, C10_failed_get_leaves_buffer testPlatform emptyState 0 "k" true rfl⟩

end Bamimi
